import Mathlib

set_option autoImplicit false

namespace Narwhal

/-- Scalar values stored in entity fields and in DB rows. Mirrors the value
universe of the source: strings, ints (bools are stored as ints), reals,
dates and datetimes. The float payload of a real is out of scope; only the
default 0.0 occurs in the claims, modeled as vreal 0. A value object that
carries a user supplied adapter method is wrapped in the adaptable
constructor; calling the adapter returns the wrapped value. -/
inductive PyVal where
  | vstr (s : String)
  | vint (n : Int)
  | vreal (n : Int)
  | vdate (y m d : Nat)
  | vdatetime (y m d : Nat)
  | adaptable (adapted : PyVal)
  deriving DecidableEq, Repr

/-- Mirrors the hasattr check for a value exposing a custom adapter. -/
def hasSqlAdapter : PyVal → Bool
  | .adaptable _ => true
  | _ => false

/-- Mirrors calling the adapter method of a value that exposes one. -/
def applySqlAdapter : PyVal → PyVal
  | .adaptable v => v
  | v => v

/-- A Python dict with insertion order, modeled as an association list. -/
def alookup {κ ν : Type} [DecidableEq κ] : List (κ × ν) → κ → Option ν
  | [], _ => none
  | (k, v) :: rest, a => if k = a then some v else alookup rest a

/-- Setting a key of a Python dict: updates the value in place if the key
exists, otherwise appends the new binding at the end. -/
def aset {κ ν : Type} [DecidableEq κ] : List (κ × ν) → κ → ν → List (κ × ν)
  | [], a, b => [(a, b)]
  | (k, v) :: rest, a, b => if k = a then (a, b) :: rest else (k, v) :: aset rest a b

theorem alookup_aset_self {κ ν : Type} [DecidableEq κ] (l : List (κ × ν)) (a : κ) (b : ν) :
    alookup (aset l a b) a = some b := by
  induction l with
  | nil => simp [alookup, aset]
  | cons hd tl ih =>
    obtain ⟨k, v⟩ := hd
    by_cases h : k = a
    · simp [alookup, aset, h]
    · simp [alookup, aset, h, ih]

theorem alookup_aset_ne {κ ν : Type} [DecidableEq κ] (l : List (κ × ν)) (a c : κ) (b : ν)
    (h : c ≠ a) : alookup (aset l a b) c = alookup l c := by
  induction l with
  | nil => simp [alookup, aset, h, Ne.symm h]
  | cons hd tl ih =>
    obtain ⟨k, v⟩ := hd
    by_cases hk : k = a
    · subst hk
      simp [alookup, aset, h, Ne.symm h]
    · simp [alookup, aset, hk, ih]

/-- Errors raised by the Python runtime that the query builder can hit:
indexing past the end of a tuple or string, and adding a string to a tuple. -/
inductive PyErr where
  | indexError
  | typeError
  deriving DecidableEq, Repr

/-- A (text, values) predicate fragment, the tuple returned by the
comparison builders, Not, And and Or of the Query class. -/
abbrev Frag := String × List PyVal

namespace Query

def Equals (varName : String) (val : PyVal) : Frag :=
  (varName ++ " = ?", [val])

def NotEquals (varName : String) (val : PyVal) : Frag :=
  (varName ++ " != ?", [val])

def LessThan (varName : String) (val : PyVal) : Frag :=
  (varName ++ " < ?", [val])

def LessThanEquals (varName : String) (val : PyVal) : Frag :=
  (varName ++ " <= ?", [val])

def GreaterThan (varName : String) (val : PyVal) : Frag :=
  (varName ++ " > ?", [val])

def GreaterThanEquals (varName : String) (val : PyVal) : Frag :=
  (varName ++ " >= ?", [val])

def Between (varName : String) (val1 val2 : PyVal) : Frag :=
  (varName ++ " between ? and ?", [val1, val2])

def Like (varName : String) (pat : PyVal) : Frag :=
  (varName ++ " like ?", [pat])

/-- Wraps a fragment in a negation, keeping its values. The source applies
this to the (text, values) tuples produced by the other builders. -/
def Not (expr : Frag) : Frag :=
  ("not (" ++ expr.1 ++ ")", expr.2)

def OrderAscending (v : String) : String := v ++ " asc"

def OrderDescending (v : String) : String := v ++ " desc"

/-- An argument passed to ChainExprs. The source is duck typed: And and Or
receive (text, values) tuples, while OrderChain receives the plain strings
produced by OrderAscending and OrderDescending. Subscripting behaves
differently on the two shapes, so both are embedded. -/
inductive QExpr where
  | tup (text : String) (vals : List PyVal)
  | str (s : String)
  deriving DecidableEq, Repr

def QExpr.ofFrag (f : Frag) : QExpr := .tup f.1 f.2

/-- Python expr[0] inside the f-string of ChainExprs: the text of a tuple
fragment, or the first character of a string (IndexError when empty). -/
def qIdx0 : QExpr → Except PyErr String
  | .tup t _ => .ok t
  | .str s =>
    match s.toList with
    | [] => .error .indexError
    | c :: _ => .ok c.toString

/-- Python val_tup += expr[1] in ChainExprs: extends the value tuple with
the values of a tuple fragment; on a string, expr[1] is its second
character (IndexError when shorter) and adding a string to a tuple then
raises a TypeError. -/
def qAppendVals (vals : List PyVal) : QExpr → Except PyErr (List PyVal)
  | .tup _ v => .ok (vals ++ v)
  | .str s =>
    match s.toList with
    | _ :: _ :: _ => .error .typeError
    | _ => .error .indexError

/-- The loop body of ChainExprs: all but the last expression get the chain
string appended after their parenthesized text; the last one does not.
On an empty input the source reads exprs[-1] from an empty tuple, which
raises an IndexError. -/
def chainGo (chainStr : String) (acc : String) (vals : List PyVal) :
    List QExpr → Except PyErr Frag
  | [] => .error .indexError
  | [e] =>
    match qIdx0 e with
    | .error er => .error er
    | .ok t =>
      match qAppendVals vals e with
      | .error er => .error er
      | .ok vs => .ok (acc ++ "(" ++ t ++ ")", vs)
  | e :: rest =>
    match qIdx0 e with
    | .error er => .error er
    | .ok t =>
      match qAppendVals vals e with
      | .error er => .error er
      | .ok vs => chainGo chainStr (acc ++ "(" ++ t ++ ")" ++ chainStr) vs rest

def ChainExprs (exprs : List QExpr) (chainStr : String) : Except PyErr Frag :=
  chainGo chainStr "" [] exprs

def And (exprs : List QExpr) : Except PyErr Frag :=
  ChainExprs exprs " and "

def Or (exprs : List QExpr) : Except PyErr Frag :=
  ChainExprs exprs " or "

def OrderChain (exprs : List QExpr) : Except PyErr Frag :=
  ChainExprs exprs ", "

end Query

/-! The store model. The SQL class keeps one cache bucket and one table per
registered kind, indexed by the kind name; every operation below touches
only the bucket and table of the kind it is given, so the state models the
slice for that kind, together with the shared object heap and the shared
connection trace. Python object identity is modeled by an explicit heap:
addresses are naturals, and two references are identity equal exactly when
they are the same address. Entity instances are modeled without child list
relations and without reference typed fields: both collaborators are
external to the mapping layer, so the loops over item lists and the
reference branch of the row copy are no-ops for the entities modeled here.
No derived column is named dbid, matching the synthetic primary key. -/

/-- The built in storage type default table, extended at runtime by
RegisterTypeConversion; only the seed entries matter for the claims. -/
def TYPE_DEFAULT : List (String × PyVal) :=
  [("text", .vstr ""),
   ("integer", .vint (-1)),
   ("real", .vreal 0),
   ("date", .vdate 1000 1 1),
   ("timestamp", .vdatetime 1000 1 1)]

/-- The default value of a storage type. The source raises a KeyError on an
unregistered type name; the claims only touch registered types, for which
the fallback branch never fires. -/
def typeDefault (t : String) : PyVal :=
  (alookup TYPE_DEFAULT t).getD (.vint 0)

/-- A registered entity kind: class name, table name, the derived ordered
column list of (name, storage type) pairs, and the immutability flag. -/
structure Kind where
  name : String
  tablename : String
  columns : List (String × String)
  immutable : Bool
  deriving DecidableEq, Repr

/-- An entity instance: the dbid attribute (none when the attribute is not
in the instance dict) and the remaining attribute dict. -/
structure Obj where
  dbid : Option Int
  fields : List (String × PyVal)
  deriving DecidableEq, Repr

def emptyObj : Obj := ⟨none, []⟩

/-- A stored table row: the primary key and the column values by name. -/
structure Row where
  dbid : Int
  cols : List (String × PyVal)
  deriving DecidableEq, Repr

/-- A statement issued on the connection: a parameterized single execute, a
parameterized executemany, or a commit. -/
inductive Stmt where
  | exec (text : String) (params : List PyVal)
  | execMany (text : String) (rows : List (List PyVal))
  | commitTx
  deriving DecidableEq, Repr

/-- The state of the store for one kind: its table rows, its cache bucket
mapping dbid to the address of the single live instance, the object heap,
the next fresh address, and the trace of statements issued so far. -/
structure State where
  table : List Row
  cache : List (Int × Nat)
  heap : List (Nat × Obj)
  nextAddr : Nat
  trace : List Stmt
  deriving DecidableEq, Repr

def heapGet (h : List (Nat × Obj)) (a : Nat) : Obj :=
  (alookup h a).getD emptyObj

/-- Successive setattr calls copying row columns into an instance dict. -/
def setFields (fs : List (String × PyVal)) (cols : List (String × PyVal)) :
    List (String × PyVal) :=
  cols.foldl (fun acc nv => aset acc nv.1 nv.2) fs

/-- CopyRowToData of the source: with no existing item a fresh instance is
allocated and populated; with an existing item every column value of the
row is copied into its attributes in place. The dbid key is assigned
directly, never through a setter; reference fields and the child list
notification concern the external collaborators and do not arise for the
entities modeled here. -/
def CopyRowToData (row : Row) (existing : Option Obj) : Obj :=
  let item := existing.getD emptyObj
  { dbid := some row.dbid, fields := setFields item.fields row.cols }

/-- ProcessRow of the source: if the dbid of the row is already in the
bucket of the kind, the row is copied into the cached instance in place and
that same instance is returned; otherwise a new instance is allocated,
populated, cached under the dbid, and returned. -/
def ProcessRow (s : State) (row : Row) : State × Nat :=
  match alookup s.cache row.dbid with
  | some addr =>
    let item := CopyRowToData row (some (heapGet s.heap addr))
    ({ s with heap := aset s.heap addr item }, addr)
  | none =>
    let item := CopyRowToData row none
    let addr := s.nextAddr
    ({ s with
        heap := aset s.heap addr item,
        cache := aset s.cache row.dbid addr,
        nextAddr := addr + 1 }, addr)

/-- The value stored for one column: the instance attribute if present,
passed through its adapter if the value exposes one, else the default of
the storage type of the column. Mirrors the value resolution shared by
Add, AddList, Update and UpdateList. -/
def resolveColumnValue (fields : List (String × PyVal)) (col : String × String) : PyVal :=
  match alookup fields col.1 with
  | some v => if hasSqlAdapter v then applySqlAdapter v else v
  | none => typeDefault col.2

def colNames (k : Kind) : List String := k.columns.map Prod.fst

/-- The INSERT command text built by Add and AddList: one placeholder for
dbid and one per derived column. -/
def insertCmdText (k : Kind) : String :=
  "insert into " ++ k.tablename ++ " values (?, " ++
    String.join (List.replicate (k.columns.length - 1) "?, ") ++ "?)"

/-- The UPDATE command text built by Update and UpdateList. The source
indexes the last column directly, so this is only ever built for a kind
with at least one column; the empty case below is never used. -/
def updateCmdText (k : Kind) : String :=
  "update " ++ k.tablename ++ " set " ++
    String.join (k.columns.dropLast.map (fun c => c.1 ++ " = ?, ")) ++
    (match k.columns.getLast? with
     | some c => c.1
     | none => "") ++ " = ? where dbid = ?"

/-- TableLength of the source: runs a full select and counts the fetched
rows. Returns the updated trace and the row count. -/
def TableLength (k : Kind) (s : State) : State × Nat :=
  ({ s with trace := s.trace ++ [.exec ("select * from " ++ k.tablename) []] },
   s.table.length)

/-- The engine effect of one UPDATE ... WHERE dbid = d: every row with that
key gets the named columns set to the given values. -/
def applyUpdateStmt (tbl : List Row) (names : List String) (vals : List PyVal)
    (d : Int) : List Row :=
  tbl.map (fun r =>
    if r.dbid = d then { r with cols := setFields r.cols (names.zip vals) } else r)

/-- The branch of Update taken when the dbid attribute is present (with any
value, the sentinel included). On an immutable kind without the force flag
it only prints a warning and returns. With no derived columns the source
raises an IndexError reading the last column, before any effect; the false
flag of the result marks the escaping exception. Otherwise it executes the
parameterized UPDATE keyed on the dbid and commits if asked. -/
def UpdateKeyed (k : Kind) (d : Int) (forceUpdate commit : Bool) (s : State)
    (addr : Nat) : State × Bool :=
  if k.immutable && !forceUpdate then
    (s, true)
  else
    match k.columns.getLast? with
    | none => (s, false)
    | some _ =>
      let item := heapGet s.heap addr
      let vals := k.columns.map (resolveColumnValue item.fields)
      let s1 := { s with
        trace := s.trace ++ [.exec (updateCmdText k) (vals ++ [PyVal.vint d])],
        table := applyUpdateStmt s.table (colNames k) vals d }
      let s2 := if commit then { s1 with trace := s1.trace ++ [.commitTx] } else s1
      (s2, true)

/-- The fresh path of Add: read the table length, assign it as the dbid of
the item, cache the item under that dbid, resolve the column values, then
execute the INSERT. The insertOk flag injects an engine failure of the
INSERT: when false, the exception escapes (false result flag) after the
dbid assignment and the caching already happened. -/
def AddFresh (k : Kind) (insertOk commit : Bool) (s : State) (addr : Nat) :
    State × Bool :=
  let tl := TableLength k s
  let s0 := tl.1
  let d : Int := (tl.2 : Int)
  let item := { heapGet s0.heap addr with dbid := some d }
  let s1 := { s0 with heap := aset s0.heap addr item }
  let s2 := { s1 with cache := aset s1.cache d addr }
  let vals := k.columns.map (resolveColumnValue item.fields)
  if insertOk then
    let s3 := { s2 with
      trace := s2.trace ++ [.exec (insertCmdText k) (PyVal.vint d :: vals)],
      table := s2.table ++ [⟨d, (colNames k).zip vals⟩] }
    let s4 := if commit then { s3 with trace := s3.trace ++ [.commitTx] } else s3
    (s4, true)
  else
    (s2, false)

/-- Add of the source: with a dbid attribute different from the sentinel it
delegates to Update, which re-reads the dict and takes the keyed branch;
otherwise it runs the fresh insert path. -/
def Add (k : Kind) (insertOk commit : Bool) (s : State) (addr : Nat) :
    State × Bool :=
  match (heapGet s.heap addr).dbid with
  | some d =>
    if d = -1 then AddFresh k insertOk commit s addr
    else UpdateKeyed k d false commit s addr
  | none => AddFresh k insertOk commit s addr

/-- Update of the source: with a dbid attribute present (any value) it runs
the keyed branch; with the attribute absent it delegates to Add. -/
def Update (k : Kind) (forceUpdate commit : Bool) (s : State) (addr : Nat) :
    State × Bool :=
  match (heapGet s.heap addr).dbid with
  | some d => UpdateKeyed k d forceUpdate commit s addr
  | none => Add k true commit s addr

/-- The first loop of AddList: items with a dbid attribute different from
the sentinel are redirected individually to Update; the others are kept, in
order, for the batched insert. An exception escaping from Update aborts the
call (false flag). -/
def addListFilter (k : Kind) (commit : Bool) :
    State → List Nat → List Nat → State × List Nat × Bool
  | s, acc, [] => (s, acc, true)
  | s, acc, addr :: rest =>
    match (heapGet s.heap addr).dbid with
    | some d =>
      if d = -1 then addListFilter k commit s (acc ++ [addr]) rest
      else
        let r := Update k false commit s addr
        if r.2 then addListFilter k commit r.1 acc rest else (r.1, acc, false)
    | none => addListFilter k commit s (acc ++ [addr]) rest

/-- The second loop of AddList: the i-th kept item gets dbid i, is cached
under it, and contributes one parameter row to the batch; the matching
stored rows are produced alongside. -/
def addListAssign (k : Kind) :
    State → Nat → List Nat → State × List (List PyVal) × List Row
  | s, _, [] => (s, [], [])
  | s, i, addr :: rest =>
    let item := { heapGet s.heap addr with dbid := some (i : Int) }
    let s1 := { s with
      heap := aset s.heap addr item,
      cache := aset s.cache (i : Int) addr }
    let vals := k.columns.map (resolveColumnValue item.fields)
    let r := addListAssign k s1 (i + 1) rest
    (r.1, (PyVal.vint i :: vals) :: r.2.1,
      (⟨(i : Int), (colNames k).zip vals⟩ : Row) :: r.2.2)

/-- AddList of the source: on an empty list it returns at once; otherwise
it redirects keyed items to Update, assigns the remaining items sequential
dbids starting at 0, caches them, and issues one executemany INSERT with
all their parameter rows, committing if asked. -/
def AddList (k : Kind) (commit : Bool) (s : State) (addrs : List Nat) :
    State × Bool :=
  match addrs with
  | [] => (s, true)
  | _ :: _ =>
    let f := addListFilter k commit s [] addrs
    if f.2.2 then
      let a := addListAssign k f.1 0 f.2.1
      let s3 := { a.1 with
        trace := a.1.trace ++ [.execMany (insertCmdText k) a.2.1],
        table := a.1.table ++ a.2.2 }
      let s4 := if commit then { s3 with trace := s3.trace ++ [.commitTx] } else s3
      (s4, true)
    else
      (f.1, false)

/-- The engine effect of one parameter row of the executemany UPDATE of
UpdateList: the last parameter is the key, the others the column values.
The loop below always builds rows of this shape, so the fallback branch
never fires. -/
def applyUpdateEntry (names : List String) (tbl : List Row) (entry : List PyVal) :
    List Row :=
  match entry.getLast? with
  | some (.vint d) => applyUpdateStmt tbl names entry.dropLast d
  | _ => tbl

/-- The per-item loop of UpdateList. Items with a dbid attribute append
their parameter row to the accumulated argument list; the others are
appended to the accumulated add list. The source then calls AddList on the
add list, runs the executemany UPDATE on the argument list, and commits if
asked, with all three statements indented inside this loop, so they run
once per item on the growing accumulators rather than once after the loop. -/
def updateListLoop (k : Kind) (commit : Bool) (cmdText : String) :
    State → List (List PyVal) → List Nat → List Nat → State × Bool
  | s, _, _, [] => (s, true)
  | s, argList, addList, addr :: rest =>
    let item := heapGet s.heap addr
    let argList1 :=
      match item.dbid with
      | some d => argList ++ [k.columns.map (resolveColumnValue item.fields) ++ [PyVal.vint d]]
      | none => argList
    let addList1 :=
      match item.dbid with
      | some _ => addList
      | none => addList ++ [addr]
    let r := AddList k commit s addList1
    if r.2 then
      let s1 := { r.1 with
        trace := r.1.trace ++ [.execMany cmdText argList1],
        table := argList1.foldl (applyUpdateEntry (colNames k)) r.1.table }
      let s2 := if commit then { s1 with trace := s1.trace ++ [.commitTx] } else s1
      updateListLoop k commit cmdText s2 argList1 addList1 rest
    else
      (r.1, false)

/-- UpdateList of the source: empty input returns at once; an immutable
kind without the force flag is a warned no-op; with no derived columns the
command construction raises an IndexError before any effect; otherwise the
per-item loop runs with the mis-indented statement block inside it. -/
def UpdateList (k : Kind) (forceUpdate commit : Bool) (s : State)
    (addrs : List Nat) : State × Bool :=
  match addrs with
  | [] => (s, true)
  | _ :: _ =>
    if k.immutable && !forceUpdate then
      (s, true)
    else
      match k.columns.getLast? with
      | none => (s, false)
      | some _ => updateListLoop k commit (updateCmdText k) s [] [] addrs

/-- A predicate argument for the read operations: the fragment text and
values handed to the engine, and the engine evaluation of the WHERE clause
on a row, which belongs to the external engine contract. -/
structure Pred where
  text : String
  vals : List PyVal
  sem : Row → Bool

def selectCmdText (k : Kind) (qtext orderby : String) : String :=
  "select * from " ++ k.tablename ++ " where " ++ qtext ++
    (if orderby = "" then "" else " order by " ++ orderby)

/-- Streaming a result set through ProcessRow, keeping result set order. -/
def processRows : State → List Row → State × List Nat
  | s, [] => (s, [])
  | s, r :: rest =>
    let p := ProcessRow s r
    let q := processRows p.1 rest
    (q.1, p.2 :: q.2)

/-- Select of the source. The matching rows are returned in table order,
which is the engine behavior for an empty orderby; the claims never touch
the row order of a nonempty orderby, only the matched set. -/
def Select (k : Kind) (q : Pred) (orderby : String) (s : State) :
    State × List Nat :=
  let s0 := { s with trace := s.trace ++ [.exec (selectCmdText k q.text orderby) q.vals] }
  processRows s0 (s0.table.filter q.sem)

/-- SelectOne of the source: fetchone on the result set; with no matching
row the explicit absent value is returned, with no error. -/
def SelectOne (k : Kind) (q : Pred) (s : State) : State × Option Nat :=
  let s0 := { s with trace := s.trace ++ [.exec (selectCmdText k q.text "") q.vals] }
  match s0.table.filter q.sem with
  | [] => (s0, none)
  | row :: _ =>
    let p := ProcessRow s0 row
    (p.1, some p.2)

/-- SelectAtIndex of the source: direct primary key lookup, absent when no
row carries the key. -/
def SelectAtIndex (k : Kind) (idx : Int) (s : State) : State × Option Nat :=
  let s0 := { s with trace := s.trace ++
    [.exec ("select * from " ++ k.tablename ++ " where dbid = ?") [.vint idx]] }
  match s0.table.filter (fun r => r.dbid == idx) with
  | [] => (s0, none)
  | row :: _ =>
    let p := ProcessRow s0 row
    (p.1, some p.2)

/-- RandomEntries of the source: the engine returns the table rows in an
engine chosen random order, clamped by the LIMIT to at least one row. The
shuffled argument stands for that engine ordering; the theorems tie it to
the table by a permutation hypothesis. -/
def RandomEntries (k : Kind) (num : Int) (shuffled : List Row) (s : State) :
    State × List Nat :=
  let lim : Int := max 1 num
  let s0 := { s with trace := s.trace ++
    [.exec ("select * from " ++ k.tablename ++ " order by random() limit " ++ toString lim) []] }
  processRows s0 (shuffled.take lim.toNat)

/-! Query builder lemmas. -/

theorem qAppendVals_shift (vals : List PyVal) (e : Query.QExpr) :
    Query.qAppendVals vals e = (Query.qAppendVals [] e).map (fun v => vals ++ v) := by
  cases e with
  | tup t v => simp [Query.qAppendVals, Except.map]
  | str s =>
    cases h : s.data with
    | nil => simp [Query.qAppendVals, String.toList, h, Except.map]
    | cons a tl =>
      cases tl with
      | nil => simp [Query.qAppendVals, String.toList, h, Except.map]
      | cons b tl2 => simp [Query.qAppendVals, String.toList, h, Except.map]

theorem chainGo_shift (chainStr : String) (exprs : List Query.QExpr) :
    ∀ (acc : String) (vals : List PyVal),
      Query.chainGo chainStr acc vals exprs =
        (Query.chainGo chainStr "" [] exprs).map
          (fun f => (acc ++ f.1, vals ++ f.2)) := by
  induction exprs with
  | nil => intro acc vals; simp [Query.chainGo, Except.map]
  | cons e rest ih =>
    intro acc vals
    cases rest with
    | nil =>
      cases hq : Query.qIdx0 e with
      | error er => simp [Query.chainGo, hq, Except.map]
      | ok t =>
        simp only [Query.chainGo, hq]
        rw [qAppendVals_shift vals e]
        cases hv : Query.qAppendVals [] e with
        | error er => simp [hv, Except.map]
        | ok vs => simp [hv, Except.map, String.append_assoc]
    | cons r rs =>
      cases hq : Query.qIdx0 e with
      | error er => simp [Query.chainGo, hq, Except.map]
      | ok t =>
        simp only [Query.chainGo, hq]
        rw [qAppendVals_shift vals e]
        cases hv : Query.qAppendVals [] e with
        | error er => simp [hv, Except.map]
        | ok vs =>
          simp only [hv, Except.map]
          rw [ih, ih (("" : String) ++ "(" ++ t ++ ")" ++ chainStr)]
          cases hrest : Query.chainGo chainStr "" [] (r :: rs) with
          | error er => simp [Except.map]
          | ok f => simp [Except.map, String.append_assoc]

theorem chainGo_tups_ok (chainStr : String) (l : List Frag) (h : l ≠ []) :
    ∀ (acc : String) (vals : List PyVal),
      ∃ f, Query.chainGo chainStr acc vals (l.map Query.QExpr.ofFrag) = .ok f := by
  induction l with
  | nil => exact absurd rfl h
  | cons x xs ih =>
    intro acc vals
    cases xs with
    | nil =>
      exact ⟨(acc ++ "(" ++ x.1 ++ ")", vals ++ x.2),
        by simp [Query.chainGo, Query.QExpr.ofFrag, Query.qIdx0, Query.qAppendVals]⟩
    | cons y ys =>
      obtain ⟨f, hf⟩ :=
        ih (by simp) (acc ++ "(" ++ x.1 ++ ")" ++ chainStr) (vals ++ x.2)
      exact ⟨f, by
        simp [Query.chainGo, Query.QExpr.ofFrag, Query.qIdx0, Query.qAppendVals] at hf ⊢
        exact hf⟩

/-- Claim C7: And and Or parenthesize each sub-fragment, join them with the
matching boolean connective, and concatenate the value tuples left to right
in placeholder order; Not wraps the fragment text in a negation and keeps
the values. In particular And of Equals a 1 and GreaterThan b 2 yields the
text (a = ?) and (b > ?) with values (1, 2), and wrapping that in Not
yields not ((a = ?) and (b > ?)) with the same values. -/
theorem claim7_query_composition :
    (∀ (t : String) (v : List PyVal) (rest : List Query.QExpr), rest ≠ [] →
      Query.And (Query.QExpr.tup t v :: rest) =
        (Query.And rest).map
          (fun f => ("(" ++ t ++ ")" ++ " and " ++ f.1, v ++ f.2))) ∧
    (∀ (t : String) (v : List PyVal) (rest : List Query.QExpr), rest ≠ [] →
      Query.Or (Query.QExpr.tup t v :: rest) =
        (Query.Or rest).map
          (fun f => ("(" ++ t ++ ")" ++ " or " ++ f.1, v ++ f.2))) ∧
    (∀ (t : String) (v : List PyVal),
      Query.And [Query.QExpr.tup t v] = .ok ("(" ++ t ++ ")", v)) ∧
    (∀ f : Frag, Query.Not f = ("not (" ++ f.1 ++ ")", f.2)) ∧
    Query.And [Query.QExpr.ofFrag (Query.Equals "a" (.vint 1)),
               Query.QExpr.ofFrag (Query.GreaterThan "b" (.vint 2))] =
      .ok ("(a = ?) and (b > ?)", [.vint 1, .vint 2]) ∧
    (Query.And [Query.QExpr.ofFrag (Query.Equals "a" (.vint 1)),
                Query.QExpr.ofFrag (Query.GreaterThan "b" (.vint 2))]).map Query.Not =
      .ok ("not ((a = ?) and (b > ?))", [.vint 1, .vint 2]) := by
  refine ⟨?_, ?_, ?_, ?_, ?_, ?_⟩
  · intro t v rest h
    obtain ⟨r, rs, rfl⟩ := List.exists_cons_of_ne_nil h
    show Query.chainGo " and " "" [] _ = _
    simp only [Query.chainGo, Query.qIdx0, Query.qAppendVals]
    rw [chainGo_shift]
    cases hrest : Query.chainGo " and " "" [] (r :: rs) with
    | error er => simp [Query.And, Query.ChainExprs, hrest]
    | ok f => simp [Query.And, Query.ChainExprs, hrest, String.append_assoc]
  · intro t v rest h
    obtain ⟨r, rs, rfl⟩ := List.exists_cons_of_ne_nil h
    show Query.chainGo " or " "" [] _ = _
    simp only [Query.chainGo, Query.qIdx0, Query.qAppendVals]
    rw [chainGo_shift]
    cases hrest : Query.chainGo " or " "" [] (r :: rs) with
    | error er => simp [Query.Or, Query.ChainExprs, hrest]
    | ok f => simp [Query.Or, Query.ChainExprs, hrest, String.append_assoc]
  · intro t v
    show Query.chainGo " and " "" [] _ = _
    simp [Query.chainGo, Query.qIdx0, Query.qAppendVals]
  · intro f
    rfl
  · rfl
  · rfl

theorem claim7_query_composition_witness :
    Query.And [Query.QExpr.tup "x = ?" [PyVal.vint 9],
               Query.QExpr.tup "y = ?" [PyVal.vint 8]] =
      (Query.And [Query.QExpr.tup "y = ?" [PyVal.vint 8]]).map
        (fun f => ("(" ++ "x = ?" ++ ")" ++ " and " ++ f.1, [PyVal.vint 9] ++ f.2)) :=
  claim7_query_composition.1 "x = ?" [PyVal.vint 9]
    [Query.QExpr.tup "y = ?" [PyVal.vint 8]] (by simp)

/-- Claim C9 counterexample: OrderChain applied to one ordering fragment,
the plain string produced by OrderAscending, raises a TypeError instead of
succeeding, refuting that And, Or and OrderChain succeed on every nonempty
expression list. -/
theorem claim9_counterexample :
    Query.OrderChain [Query.QExpr.str (Query.OrderAscending "a")] =
      .error .typeError := by
  rfl

/-- Claim C9 as amended: applied to zero expressions, ChainExprs and with it
And, Or and OrderChain fail with an out of range index instead of returning
an empty fragment; And and Or succeed on every nonempty list of
(text, values) fragments; OrderChain applied to a nonempty list of ordering
fragments, plain strings of length at least two, fails with a TypeError
when extending the value tuple, so it succeeds only on tuple shaped
arguments. -/
theorem claim9_chain_totality :
    (∀ c, Query.ChainExprs [] c = .error .indexError) ∧
    Query.And [] = .error .indexError ∧
    Query.Or [] = .error .indexError ∧
    Query.OrderChain [] = .error .indexError ∧
    (∀ l : List Frag, l ≠ [] →
      (∃ f, Query.And (l.map Query.QExpr.ofFrag) = .ok f) ∧
      (∃ f, Query.Or (l.map Query.QExpr.ofFrag) = .ok f)) ∧
    (∀ ss : List String, ss ≠ [] → (∀ x ∈ ss, 2 ≤ x.toList.length) →
      Query.OrderChain (ss.map Query.QExpr.str) = .error .typeError) := by
  refine ⟨fun c => rfl, rfl, rfl, rfl, ?_, ?_⟩
  · intro l h
    exact ⟨chainGo_tups_ok " and " l h "" [], chainGo_tups_ok " or " l h "" []⟩
  · intro ss h hlen
    obtain ⟨x, xs, rfl⟩ := List.exists_cons_of_ne_nil h
    have hx : 2 ≤ x.toList.length := hlen x (by simp)
    show Query.chainGo ", " "" [] _ = _
    cases hxl : x.data with
    | nil => rw [String.toList, hxl] at hx; simp at hx
    | cons a tl =>
      cases tl with
      | nil => rw [String.toList, hxl] at hx; simp at hx
      | cons b tl2 =>
        cases xs with
        | nil => simp [Query.chainGo, Query.qIdx0, Query.qAppendVals, String.toList, hxl]
        | cons y ys => simp [Query.chainGo, Query.qIdx0, Query.qAppendVals, String.toList, hxl]

theorem claim9_chain_totality_witness :
    (∃ f, Query.And ([Query.Equals "c" (.vint 3)].map Query.QExpr.ofFrag) = .ok f) ∧
    Query.OrderChain (["a asc"].map Query.QExpr.str) = .error .typeError :=
  ⟨(claim9_chain_totality.2.2.2.2.1 [Query.Equals "c" (.vint 3)] (by simp)).1,
   claim9_chain_totality.2.2.2.2.2 ["a asc"] (by simp) (by decide)⟩

/-! Claims on Update and Add. -/

/-- Claim C3 as amended: for every item of an immutable kind whose dict
carries a dbid attribute, Update without the force flag is a no-op: it only
prints a warning, issues no statement, leaves the table, the cache and the
heap unchanged, and returns without an escaping exception. The printing
itself is output, not state. The restriction to items carrying the
attribute is forced by the counterexample below. -/
theorem claim3_immutable_update_noop (k : Kind) (s : State) (addr : Nat)
    (d : Int) (commit : Bool)
    (himm : k.immutable = true)
    (hd : (heapGet s.heap addr).dbid = some d) :
    Update k false commit s addr = (s, true) := by
  simp [Update, hd, UpdateKeyed, himm]

def k3w : Kind := ⟨"P", "p_table", [("a", "integer")], true⟩

def s3w : State := ⟨[], [], [(0, ⟨some 0, []⟩)], 1, []⟩

theorem claim3_immutable_update_noop_witness :
    Update k3w false true s3w 0 = (s3w, true) :=
  claim3_immutable_update_noop k3w s3w 0 0 true rfl rfl

def k3c : Kind := ⟨"P2", "p2_table", [("a", "integer")], true⟩

def s3c : State := ⟨[], [], [(0, ⟨none, [("a", PyVal.vint 5)]⟩)], 1, []⟩

/-- Claim C3 counterexample: on an immutable kind, Update of an item whose
dict has no dbid attribute is not a no-op: it delegates to Add, which runs
the table length select and the INSERT, appends a row and caches the item,
refuting the claim as stated for every item of an immutable kind. -/
theorem claim3_counterexample :
    (Update k3c false true s3c 0).1.table = [⟨0, [("a", PyVal.vint 5)]⟩] ∧
    (Update k3c false true s3c 0).1.trace =
      [Stmt.exec "select * from p2_table" [],
       Stmt.exec "insert into p2_table values (?, ?)" [PyVal.vint 0, PyVal.vint 5],
       Stmt.commitTx] ∧
    alookup (Update k3c false true s3c 0).1.cache 0 = some 0 := by
  decide

/-- Claim C5 as amended: Update delegates to Add exactly when the dict of
the item has no dbid attribute; whenever dbid is present, the sentinel -1
included, Update takes the keyed branch, and on a mutable kind with at
least one column it executes the UPDATE statement keyed on that dbid. -/
theorem claim5_update_dispatch (k : Kind) (s : State) (addr : Nat) (d : Int)
    (fu commit : Bool) :
    ((heapGet s.heap addr).dbid = none →
      Update k fu commit s addr = Add k true commit s addr) ∧
    ((heapGet s.heap addr).dbid = some d →
      Update k fu commit s addr = UpdateKeyed k d fu commit s addr) ∧
    ((heapGet s.heap addr).dbid = some d → k.immutable = false →
      k.columns ≠ [] →
      (Update k fu commit s addr).1.trace =
        s.trace ++
          [Stmt.exec (updateCmdText k)
            (k.columns.map (resolveColumnValue (heapGet s.heap addr).fields) ++
              [PyVal.vint d])] ++
          (if commit then [Stmt.commitTx] else [])) := by
  refine ⟨fun h => by simp [Update, h], fun h => by simp [Update, h], ?_⟩
  intro h himm hcol
  have hl : k.columns.getLast?.isSome := by simp [List.getLast?_isSome, hcol]
  cases hlast : k.columns.getLast? with
  | none => rw [hlast] at hl; simp at hl
  | some c =>
    cases commit <;>
      simp [Update, h, UpdateKeyed, himm, hlast]

def k5w : Kind := ⟨"Q0", "q0_table", [("a", "integer")], false⟩

def s5w : State := ⟨[], [], [(0, ⟨none, []⟩)], 1, []⟩

theorem claim5_update_dispatch_witness :
    Update k5w false true s5w 0 = Add k5w true true s5w 0 :=
  (claim5_update_dispatch k5w s5w 0 0 false true).1 rfl

def k5c : Kind := ⟨"Q", "q_table", [("a", "integer")], false⟩

def s5c : State := ⟨[], [], [(0, ⟨some (-1), [("a", PyVal.vint 3)]⟩)], 1, []⟩

/-- Claim C5 counterexample: an item whose dbid attribute is present and
holds the sentinel -1 is not delegated to Add: the call executes an UPDATE
statement keyed on -1, runs no table length select and no insert, and the
item keeps the sentinel key, refuting that Update performs an UPDATE only
when the item has a valid key. -/
theorem claim5_counterexample :
    (Update k5c false false s5c 0).1.trace =
      [Stmt.exec "update q_table set a = ? where dbid = ?"
        [PyVal.vint 3, PyVal.vint (-1)]] ∧
    (Update k5c false false s5c 0).1.table = [] ∧
    (heapGet (Update k5c false false s5c 0).1.heap 0).dbid = some (-1) := by
  decide

/-- Claim C10: Add is not atomic with respect to the engine: on a fresh
item it assigns the dbid and inserts the instance into the cache before the
INSERT executes, so when the INSERT fails the exception escapes while the
item keeps the assigned dbid and stays cached, the table is unchanged, and
only the table length select was issued. -/
theorem claim10_add_not_atomic (k : Kind) (s : State) (addr : Nat)
    (commit : Bool)
    (hfresh : (heapGet s.heap addr).dbid = none ∨
      (heapGet s.heap addr).dbid = some (-1)) :
    (Add k false commit s addr).2 = false ∧
    (Add k false commit s addr).1.table = s.table ∧
    (heapGet (Add k false commit s addr).1.heap addr).dbid =
      some (s.table.length : Int) ∧
    alookup (Add k false commit s addr).1.cache (s.table.length : Int) =
      some addr ∧
    (Add k false commit s addr).1.trace =
      s.trace ++ [Stmt.exec ("select * from " ++ k.tablename) []] := by
  have h : Add k false commit s addr = AddFresh k false commit s addr := by
    rcases hfresh with h | h <;> simp [Add, h]
  rw [h]
  simp [AddFresh, TableLength, heapGet, alookup_aset_self]

def k10 : Kind := ⟨"R", "r_table", [("a", "integer")], false⟩

def s10 : State := ⟨[], [], [(4, ⟨none, []⟩)], 5, []⟩

theorem claim10_add_not_atomic_witness :
    (Add k10 false true s10 4).2 = false ∧
    (Add k10 false true s10 4).1.table = s10.table ∧
    (heapGet (Add k10 false true s10 4).1.heap 4).dbid =
      some (s10.table.length : Int) ∧
    alookup (Add k10 false true s10 4).1.cache (s10.table.length : Int) =
      some 4 ∧
    (Add k10 false true s10 4).1.trace =
      s10.trace ++ [Stmt.exec ("select * from " ++ k10.tablename) []] :=
  claim10_add_not_atomic k10 s10 4 true (Or.inl rfl)

/-! Claims on the read operations. -/

/-- Claim C8: with no matching row, SelectOne and SelectAtIndex return the
explicit absent value and Select and RandomEntries return an empty list;
absence is reported by the return value, never by an escaping error. -/
theorem claim8_absence (k : Kind) (q : Pred) (idx : Int) (num : Int)
    (shuffled : List Row) (s : State) :
    ((∀ r ∈ s.table, q.sem r = false) → (SelectOne k q s).2 = none) ∧
    ((∀ r ∈ s.table, r.dbid ≠ idx) → (SelectAtIndex k idx s).2 = none) ∧
    (shuffled.Perm s.table → s.table = [] →
      (RandomEntries k num shuffled s).2 = []) ∧
    ((∀ r ∈ s.table, q.sem r = false) → (Select k q "" s).2 = []) := by
  refine ⟨?_, ?_, ?_, ?_⟩
  · intro h
    have hf : s.table.filter q.sem = [] :=
      List.filter_eq_nil_iff.mpr (by intro a ha; simp [h a ha])
    simp [SelectOne, hf]
  · intro h
    have hf : s.table.filter (fun r => r.dbid == idx) = [] :=
      List.filter_eq_nil_iff.mpr
        (by intro a ha; simp [beq_eq_false_iff_ne.mpr (h a ha)])
    simp [SelectAtIndex, hf]
  · intro hp he
    have hs : shuffled = [] := List.Perm.eq_nil (he ▸ hp)
    simp [RandomEntries, hs, processRows]
  · intro h
    have hf : s.table.filter q.sem = [] :=
      List.filter_eq_nil_iff.mpr (by intro a ha; simp [h a ha])
    simp [Select, hf, processRows]

def k8 : Kind := ⟨"S", "s_table", [("a", "integer")], false⟩

def s8 : State := ⟨[], [], [], 0, []⟩

def q8 : Pred := ⟨"a = ?", [.vint 1], fun r => decide (r.dbid = 1)⟩

/-- Claim C1: identity map invariant. When ProcessRow receives a row whose
dbid is in the bucket, it copies the row values into the cached instance in
place, allocates nothing, and returns that very instance; otherwise it
allocates a new instance, populates it, caches it under the dbid, and
returns it. In particular after Add of a fresh item, SelectAtIndex on its
dbid returns the very same instance while it is cache resident, on a table
that did not already carry that key. -/
theorem claim1_identity_map (k : Kind) (s : State) (row : Row) (addr : Nat)
    (commit : Bool) :
    (alookup s.cache row.dbid = some addr →
      (ProcessRow s row).2 = addr ∧
      (ProcessRow s row).1.cache = s.cache ∧
      (ProcessRow s row).1.nextAddr = s.nextAddr ∧
      heapGet (ProcessRow s row).1.heap addr =
        CopyRowToData row (some (heapGet s.heap addr))) ∧
    (alookup s.cache row.dbid = none →
      (ProcessRow s row).2 = s.nextAddr ∧
      (ProcessRow s row).1.cache = aset s.cache row.dbid s.nextAddr ∧
      heapGet (ProcessRow s row).1.heap s.nextAddr = CopyRowToData row none) ∧
    ((heapGet s.heap addr).dbid = none ∨
        (heapGet s.heap addr).dbid = some (-1) →
      (∀ r ∈ s.table, r.dbid ≠ (s.table.length : Int)) →
      (SelectAtIndex k (s.table.length : Int) (Add k true commit s addr).1).2 =
        some addr) := by
  refine ⟨?_, ?_, ?_⟩
  · intro h
    simp [ProcessRow, h, heapGet, alookup_aset_self]
  · intro h
    simp [ProcessRow, h, heapGet, alookup_aset_self]
  · intro hfresh hno
    have hAdd : Add k true commit s addr = AddFresh k true commit s addr := by
      rcases hfresh with h | h <;> simp [Add, h]
    rw [hAdd]
    have hfil : ∀ tl : List Row,
        (s.table ++ tl).filter (fun r => r.dbid == (s.table.length : Int)) =
          tl.filter (fun r => r.dbid == (s.table.length : Int)) := by
      intro tl
      rw [List.filter_append]
      have hnil : s.table.filter (fun r => r.dbid == (s.table.length : Int)) = [] :=
        List.filter_eq_nil_iff.mpr
          (fun a ha => by simp [beq_eq_false_iff_ne.mpr (hno a ha)])
      simp [hnil]
    cases commit <;>
      simp [AddFresh, TableLength, SelectAtIndex, hfil, ProcessRow,
        alookup_aset_self]

def k1 : Kind := ⟨"T", "t_table", [("a", "integer")], false⟩

def s1 : State := ⟨[], [], [], 0, []⟩

theorem claim1_identity_map_witness :
    (SelectAtIndex k1 ((s1.table.length : Nat) : Int)
        (Add k1 true true s1 7).1).2 = some 7 :=
  (claim1_identity_map k1 s1 ⟨0, []⟩ 7 true).2.2 (Or.inl rfl) (by simp [s1])

def k4 : Kind := ⟨"K", "k_table", [("a", "integer")], false⟩

def s4 : State :=
  ⟨[], [],
   [(0, ⟨none, [("a", PyVal.vint 10)]⟩), (1, ⟨none, [("a", PyVal.vint 20)]⟩)],
   2, []⟩

/-- Claim C4, code bug demonstration. The statement block of UpdateList,
the AddList redirect, the executemany UPDATE and the commit, is indented
inside the per-item loop, so it runs once per item on the growing
accumulators instead of once after the loop. On a mutable kind and two
items lacking a key: the AddList redirect runs twice, so its batched
INSERT executemany runs twice and the second call reassigns dbid 0 to the
second item, colliding with the first (a primary key violation on a real
engine) and clobbering the cache entry; the UPDATE executemany also runs
twice instead of once. Four executemany statements are issued in total,
where the claim, and the intent evidenced by the source comments and by
the post-loop placement in Update and AddList, demand one redirect and
one executemany UPDATE. -/
theorem claim4_updatelist_bug :
    (UpdateList k4 false true s4 [0, 1]).1.trace.countP
        (fun st => match st with | Stmt.execMany _ _ => true | _ => false) = 4 ∧
    (UpdateList k4 false true s4 [0, 1]).1.trace.countP
        (fun st => match st with
          | Stmt.execMany t _ => t == updateCmdText k4
          | _ => false) = 2 ∧
    (UpdateList k4 false true s4 [0, 1]).1.trace.countP
        (fun st => match st with
          | Stmt.execMany t _ => t == insertCmdText k4
          | _ => false) = 2 ∧
    (UpdateList k4 false true s4 [0, 1]).1.table.map Row.dbid = [0, 0] ∧
    alookup (UpdateList k4 false true s4 [0, 1]).1.cache 0 = some 1 := by
  decide

theorem claim8_absence_witness :
    (SelectOne k8 q8 s8).2 = none ∧
    (SelectAtIndex k8 3 s8).2 = none ∧
    (RandomEntries k8 2 [] s8).2 = [] ∧
    (Select k8 q8 "" s8).2 = [] :=
  ⟨(claim8_absence k8 q8 3 2 [] s8).1 (by simp [s8]),
   (claim8_absence k8 q8 3 2 [] s8).2.1 (by simp [s8]),
   (claim8_absence k8 q8 3 2 [] s8).2.2.1 (by simp [s8]) rfl,
   (claim8_absence k8 q8 3 2 [] s8).2.2.2 (by simp [s8])⟩

/-! Helper lemmas on the heap, on UpdateKeyed and on the fresh insert path,
shared by the remaining claims. -/

theorem heapGet_aset_self (h : List (Nat × Obj)) (b : Nat) (o : Obj) :
    heapGet (aset h b o) b = o := by
  simp [heapGet, alookup_aset_self]

theorem heapGet_aset_ne (h : List (Nat × Obj)) (b a : Nat) (o : Obj)
    (hne : a ≠ b) : heapGet (aset h b o) a = heapGet h a := by
  simp [heapGet, alookup_aset_ne _ _ _ _ hne]

/-- The item lacks a key for the fresh insert path of Add: the dbid
attribute is absent or holds the sentinel. -/
def freshItem (o : Obj) : Prop :=
  o.dbid = none ∨ o.dbid = some (-1)

instance freshItem_decidable (o : Obj) : Decidable (freshItem o) := by
  unfold freshItem
  infer_instance

/-- The hasattr plus sentinel test of AddList and Add: the item carries a
dbid attribute different from -1. -/
def validKey (o : Obj) : Bool :=
  match o.dbid with
  | some d => d != -1
  | none => false

theorem updateKeyed_state (k : Kind) (d : Int) (fu c : Bool) (s : State)
    (b : Nat) :
    (UpdateKeyed k d fu c s b).1.heap = s.heap ∧
    (UpdateKeyed k d fu c s b).1.cache = s.cache ∧
    (UpdateKeyed k d fu c s b).1.nextAddr = s.nextAddr ∧
    (UpdateKeyed k d fu c s b).1.table.length = s.table.length := by
  unfold UpdateKeyed
  split
  · simp
  · split
    · simp
    · cases c <;> simp [applyUpdateStmt]

theorem updateKeyed_ok (k : Kind) (d : Int) (fu c : Bool) (s : State)
    (b : Nat) (hcol : k.columns ≠ []) :
    (UpdateKeyed k d fu c s b).2 = true := by
  unfold UpdateKeyed
  split
  · rfl
  · cases hl : k.columns.getLast? with
    | none => exact absurd (List.getLast?_eq_none_iff.mp hl) hcol
    | some c2 => cases c <;> simp [hl]

theorem updateKeyed_immutable (k : Kind) (d : Int) (c : Bool) (s : State)
    (b : Nat) (himm : k.immutable = true) :
    UpdateKeyed k d false c s b = (s, true) := by
  simp [UpdateKeyed, himm]

theorem updateKeyed_trace (k : Kind) (d : Int) (fu c : Bool) (s : State)
    (b : Nat) (himm : k.immutable = false) (hcol : k.columns ≠ []) :
    (UpdateKeyed k d fu c s b).1.trace =
      s.trace ++
        [Stmt.exec (updateCmdText k)
          (k.columns.map (resolveColumnValue (heapGet s.heap b).fields) ++
            [PyVal.vint d])] ++
        (if c then [Stmt.commitTx] else []) := by
  have hl : k.columns.getLast?.isSome := by
    simp [List.getLast?_isSome, hcol]
  cases hlast : k.columns.getLast? with
  | none => rw [hlast] at hl; simp at hl
  | some c2 => cases c <;> simp [UpdateKeyed, himm, hlast]

/-- The full effect of the fresh insert path of Add with a succeeding
INSERT, as one state equation. -/
theorem addFresh_spec (k : Kind) (s : State) (addr : Nat) (commit : Bool)
    (hfresh : freshItem (heapGet s.heap addr)) :
    Add k true commit s addr =
      (⟨s.table ++
          [⟨(s.table.length : Int),
            (colNames k).zip
              (k.columns.map (resolveColumnValue (heapGet s.heap addr).fields))⟩],
        aset s.cache (s.table.length : Int) addr,
        aset s.heap addr
          { heapGet s.heap addr with dbid := some (s.table.length : Int) },
        s.nextAddr,
        s.trace ++
          [Stmt.exec ("select * from " ++ k.tablename) [],
           Stmt.exec (insertCmdText k)
             (PyVal.vint (s.table.length : Int) ::
               k.columns.map (resolveColumnValue (heapGet s.heap addr).fields))] ++
          (if commit then [Stmt.commitTx] else [])⟩,
       true) := by
  have hAdd : Add k true commit s addr = AddFresh k true commit s addr := by
    rcases hfresh with h | h <;> simp [Add, h]
  rw [hAdd]
  cases commit <;> simp [AddFresh, TableLength]

theorem add_heapGet_other (k : Kind) (io c : Bool) (s : State) (b a : Nat)
    (h : a ≠ b) : heapGet (Add k io c s b).1.heap a = heapGet s.heap a := by
  cases hd : (heapGet s.heap b).dbid with
  | none =>
    cases io <;> cases c <;>
      simp [Add, hd, AddFresh, TableLength, heapGet_aset_ne _ _ _ _ h]
  | some d =>
    by_cases hd1 : d = -1
    · subst hd1
      cases io <;> cases c <;>
        simp [Add, hd, AddFresh, TableLength, heapGet_aset_ne _ _ _ _ h]
    · simp [Add, hd, hd1, (updateKeyed_state k d false c s b).1]

/-- Folding Add with succeeding inserts and immediate commits over a list
of items, modeling N sequential Add calls. -/
def addSeq (k : Kind) (s : State) (addrs : List Nat) : State :=
  addrs.foldl (fun t a => (Add k true true t a).1) s

theorem addSeq_spec (k : Kind) (addrs : List Nat) :
    ∀ s : State, (∀ a ∈ addrs, freshItem (heapGet s.heap a)) → addrs.Nodup →
      (addSeq k s addrs).table.length = s.table.length + addrs.length ∧
      (∀ a, a ∉ addrs → heapGet (addSeq k s addrs).heap a = heapGet s.heap a) ∧
      (∀ i (hi : i < addrs.length),
        heapGet (addSeq k s addrs).heap (addrs.get ⟨i, hi⟩) =
          { heapGet s.heap (addrs.get ⟨i, hi⟩) with
              dbid := some ((s.table.length + i : Nat) : Int) }) := by
  induction addrs with
  | nil =>
    intro s hfr hnd
    refine ⟨by simp [addSeq], by intro a ha; simp [addSeq], ?_⟩
    intro i hi
    exact absurd hi (by simp)
  | cons a rest ih =>
    intro s hfr hnd
    have hsa : addSeq k s (a :: rest) = addSeq k (Add k true true s a).1 rest := by
      simp [addSeq]
    have hspec := addFresh_spec k s a true (hfr a (by simp))
    have hha : heapGet (Add k true true s a).1.heap a =
        { heapGet s.heap a with dbid := some (s.table.length : Int) } := by
      rw [hspec]
      exact heapGet_aset_self _ _ _
    have hlen1 : (Add k true true s a).1.table.length = s.table.length + 1 := by
      rw [hspec]
      simp
    have hothers : ∀ b, b ≠ a →
        heapGet (Add k true true s a).1.heap b = heapGet s.heap b := by
      intro b hb
      exact add_heapGet_other k true true s a b hb
    have hnotin : a ∉ rest := (List.nodup_cons.mp hnd).1
    have hfr1 : ∀ b ∈ rest, freshItem (heapGet (Add k true true s a).1.heap b) := by
      intro b hb
      rw [hothers b (by rintro rfl; exact hnotin hb)]
      exact hfr b (by simp [hb])
    obtain ⟨ihlen, ihoff, ihidx⟩ := ih (Add k true true s a).1 hfr1
      (List.nodup_cons.mp hnd).2
    refine ⟨?_, ?_, ?_⟩
    · rw [hsa, ihlen, hlen1]
      simp only [List.length_cons]
      omega
    · intro b hb
      rw [hsa, ihoff b (fun hmem => hb (by simp [hmem])),
        hothers b (by rintro rfl; exact hb (by simp))]
    · intro i hi
      rw [hsa]
      cases i with
      | zero =>
        show heapGet (addSeq k (Add k true true s a).1 rest).heap a = _
        rw [ihoff a hnotin, hha]
        simp
      | succ j =>
        have hj : j < rest.length := by
          simpa using hi
        show heapGet (addSeq k (Add k true true s a).1 rest).heap
            (rest.get ⟨j, hj⟩) = _
        rw [ihidx j hj, hothers (rest.get ⟨j, hj⟩)
          (by rintro h1; exact hnotin (h1 ▸ List.get_mem rest j hj))]
        rw [hlen1]
        rw [show s.table.length + 1 + j = s.table.length + (j + 1) from by omega]
        rfl

/-- Claim C2: on an item with no dbid attribute or the sentinel value, Add
assigns its dbid to the current row count, caches the instance under it,
and inserts the row whose first value is the dbid and whose remaining
values are, per derived column in order, the field of the instance, pushed
through its adapter when the value has one, else the default of the storage
type; with a valid dbid Add delegates to Update; and N sequential Add calls
on an initially empty uncontended table assign dbids 0 to N-1 in call
order. -/
theorem claim2_add (k : Kind) (s : State) (addr : Nat) (commit : Bool)
    (d0 : Int) :
    (freshItem (heapGet s.heap addr) →
      Add k true commit s addr =
        (⟨s.table ++
            [⟨(s.table.length : Int),
              (colNames k).zip
                (k.columns.map (resolveColumnValue (heapGet s.heap addr).fields))⟩],
          aset s.cache (s.table.length : Int) addr,
          aset s.heap addr
            { heapGet s.heap addr with dbid := some (s.table.length : Int) },
          s.nextAddr,
          s.trace ++
            [Stmt.exec ("select * from " ++ k.tablename) [],
             Stmt.exec (insertCmdText k)
               (PyVal.vint (s.table.length : Int) ::
                 k.columns.map (resolveColumnValue (heapGet s.heap addr).fields))] ++
            (if commit then [Stmt.commitTx] else [])⟩,
         true)) ∧
    ((heapGet s.heap addr).dbid = some d0 → d0 ≠ -1 →
      Add k true commit s addr = Update k false commit s addr) ∧
    (∀ (fields : List (String × PyVal)) (c : String × String),
      (∀ v, alookup fields c.1 = some v → hasSqlAdapter v = false →
        resolveColumnValue fields c = v) ∧
      (∀ w, alookup fields c.1 = some (PyVal.adaptable w) →
        resolveColumnValue fields c = w) ∧
      (alookup fields c.1 = none →
        resolveColumnValue fields c = typeDefault c.2)) ∧
    (∀ (s1 : State) (addrs : List Nat),
      s1.table = [] →
      (∀ a ∈ addrs, freshItem (heapGet s1.heap a)) →
      addrs.Nodup →
      ∀ i (hi : i < addrs.length),
        (heapGet (addSeq k s1 addrs).heap (addrs.get ⟨i, hi⟩)).dbid =
          some ((i : Nat) : Int)) := by
  refine ⟨?_, ?_, ?_, ?_⟩
  · intro hfresh
    exact addFresh_spec k s addr commit hfresh
  · intro hd hne
    simp [Add, Update, hd, hne]
  · intro fields c
    refine ⟨?_, ?_, ?_⟩
    · intro v hv hnoad
      simp [resolveColumnValue, hv, hnoad]
    · intro w hv
      simp [resolveColumnValue, hv, hasSqlAdapter, applySqlAdapter]
    · intro hv
      simp [resolveColumnValue, hv]
  · intro s1 addrs hemp hfr hnd i hi
    have h := (addSeq_spec k addrs s1 hfr hnd).2.2 i hi
    rw [h, hemp]
    simp

def k2 : Kind := ⟨"U", "u_table", [("a", "integer"), ("b", "text")], false⟩

def s2 : State :=
  ⟨[], [],
   [(3, ⟨none, [("a", PyVal.adaptable (PyVal.vint 7))]⟩), (9, ⟨some (-1), []⟩)],
   10, []⟩

theorem claim2_add_witness :
    (heapGet (addSeq k2 s2 [3, 9]).heap 3).dbid = some ((0 : Nat) : Int) ∧
    (heapGet (addSeq k2 s2 [3, 9]).heap 9).dbid = some ((1 : Nat) : Int) :=
  ⟨(claim2_add k2 s2 3 true 0).2.2.2 s2 [3, 9] rfl (by decide) (by decide)
      0 (by decide),
   (claim2_add k2 s2 3 true 0).2.2.2 s2 [3, 9] rfl (by decide) (by decide)
      1 (by decide)⟩

/-! Trace counters and the two phases of AddList. -/

def isExecManyStmt : Stmt → Bool
  | .execMany _ _ => true
  | _ => false

/-- The number of executemany statements in a trace. -/
def countExecMany (tr : List Stmt) : Nat :=
  tr.countP isExecManyStmt

def isUpdExecStmt (k : Kind) : Stmt → Bool
  | .exec t _ => t == updateCmdText k
  | _ => false

/-- The number of single UPDATE statements of the kind in a trace. -/
def countUpdExec (k : Kind) (tr : List Stmt) : Nat :=
  tr.countP (isUpdExecStmt k)

/-- The items of the list that lack a valid key at the given state, in list
order: these are the ones AddList batches into its INSERT. -/
def freshList (s : State) (addrs : List Nat) : List Nat :=
  addrs.filter (fun a => !validKey (heapGet s.heap a))

theorem updateKeyed_counts (k : Kind) (d : Int) (c : Bool) (s : State)
    (b : Nat) (hcol : k.columns ≠ []) :
    countExecMany (UpdateKeyed k d false c s b).1.trace =
      countExecMany s.trace ∧
    (k.immutable = false →
      countUpdExec k (UpdateKeyed k d false c s b).1.trace =
        countUpdExec k s.trace + 1) := by
  by_cases himm : k.immutable = true
  · rw [updateKeyed_immutable k d c s b himm]
    exact ⟨rfl, fun h => absurd himm (by simp [h])⟩
  · have himm2 : k.immutable = false := by simpa using himm
    rw [updateKeyed_trace k d false c s b himm2 hcol]
    cases c <;>
      simp [countExecMany, countUpdExec, List.countP_append, List.countP_cons,
        isExecManyStmt, isUpdExecStmt]

theorem addListFilter_spec (k : Kind) (commit : Bool) (hcol : k.columns ≠ []) :
    ∀ (addrs : List Nat) (s : State) (acc : List Nat),
      (addListFilter k commit s acc addrs).2.2 = true ∧
      (addListFilter k commit s acc addrs).2.1 =
        acc ++ addrs.filter (fun a => !validKey (heapGet s.heap a)) ∧
      (addListFilter k commit s acc addrs).1.heap = s.heap ∧
      (addListFilter k commit s acc addrs).1.cache = s.cache ∧
      (addListFilter k commit s acc addrs).1.nextAddr = s.nextAddr ∧
      (addListFilter k commit s acc addrs).1.table.length = s.table.length ∧
      countExecMany (addListFilter k commit s acc addrs).1.trace =
        countExecMany s.trace ∧
      (k.immutable = false →
        countUpdExec k (addListFilter k commit s acc addrs).1.trace =
          countUpdExec k s.trace +
            (addrs.filter (fun a => validKey (heapGet s.heap a))).length) := by
  intro addrs
  induction addrs with
  | nil => intro s acc; simp [addListFilter]
  | cons a rest ih =>
    intro s acc
    cases hv : (heapGet s.heap a).dbid with
    | none =>
      have hvk : validKey (heapGet s.heap a) = false := by simp [validKey, hv]
      have hstep : addListFilter k commit s acc (a :: rest) =
          addListFilter k commit s (acc ++ [a]) rest := by
        simp [addListFilter, hv]
      obtain ⟨h1, h2, h3, h4, h5, h6, h7, h8⟩ := ih s (acc ++ [a])
      rw [hstep]
      refine ⟨h1, ?_, h3, h4, h5, h6, h7, ?_⟩
      · rw [h2]
        simp [List.filter_cons, hvk]
      · intro himm
        rw [h8 himm]
        simp [List.filter_cons, hvk]
    | some d =>
      by_cases hd1 : d = -1
      · subst hd1
        have hvk : validKey (heapGet s.heap a) = false := by simp [validKey, hv]
        have hstep : addListFilter k commit s acc (a :: rest) =
            addListFilter k commit s (acc ++ [a]) rest := by
          simp [addListFilter, hv]
        obtain ⟨h1, h2, h3, h4, h5, h6, h7, h8⟩ := ih s (acc ++ [a])
        rw [hstep]
        refine ⟨h1, ?_, h3, h4, h5, h6, h7, ?_⟩
        · rw [h2]
          simp [List.filter_cons, hvk]
        · intro himm
          rw [h8 himm]
          simp [List.filter_cons, hvk]
      · have hvk : validKey (heapGet s.heap a) = true := by
          simp [validKey, hv, hd1]
        have hupd : Update k false commit s a = UpdateKeyed k d false commit s a := by
          simp [Update, hv]
        have hok : (Update k false commit s a).2 = true := by
          rw [hupd]
          exact updateKeyed_ok k d false commit s a hcol
        have hstep : addListFilter k commit s acc (a :: rest) =
            addListFilter k commit (Update k false commit s a).1 acc rest := by
          simp [addListFilter, hv, hd1, hok]
        obtain ⟨hs1, hs2, hs3, hs4⟩ := updateKeyed_state k d false commit s a
        obtain ⟨hc1, hc2⟩ := updateKeyed_counts k d commit s a hcol
        obtain ⟨h1, h2, h3, h4, h5, h6, h7, h8⟩ :=
          ih (Update k false commit s a).1 acc
        rw [hstep]
        refine ⟨h1, ?_, ?_, ?_, ?_, ?_, ?_, ?_⟩
        · rw [h2, hupd, hs1]
          simp [List.filter_cons, hvk]
        · rw [h3, hupd, hs1]
        · rw [h4, hupd, hs2]
        · rw [h5, hupd, hs3]
        · rw [h6, hupd, hs4]
        · rw [h7, hupd, hc1]
        · intro himm
          rw [h8 himm, hupd, hs1, hc2 himm]
          simp [List.filter_cons, hvk]
          omega

theorem addListAssign_spec (k : Kind) :
    ∀ (fresh : List Nat) (s : State) (i : Nat), fresh.Nodup →
      (addListAssign k s i fresh).1.table = s.table ∧
      (addListAssign k s i fresh).1.trace = s.trace ∧
      (∀ a, a ∉ fresh →
        heapGet (addListAssign k s i fresh).1.heap a = heapGet s.heap a) ∧
      (∀ m : Int, m < (i : Int) →
        alookup (addListAssign k s i fresh).1.cache m = alookup s.cache m) ∧
      (∀ j (hj : j < fresh.length),
        heapGet (addListAssign k s i fresh).1.heap (fresh.get ⟨j, hj⟩) =
          { heapGet s.heap (fresh.get ⟨j, hj⟩) with
              dbid := some ((i + j : Nat) : Int) }) ∧
      (∀ j (hj : j < fresh.length),
        alookup (addListAssign k s i fresh).1.cache ((i + j : Nat) : Int) =
          some (fresh.get ⟨j, hj⟩)) ∧
      (addListAssign k s i fresh).2.1.length = fresh.length ∧
      (∀ j (hj : j < fresh.length)
          (hj2 : j < (addListAssign k s i fresh).2.1.length),
        (addListAssign k s i fresh).2.1.get ⟨j, hj2⟩ =
          PyVal.vint ((i + j : Nat) : Int) ::
            k.columns.map
              (resolveColumnValue (heapGet s.heap (fresh.get ⟨j, hj⟩)).fields)) ∧
      (addListAssign k s i fresh).2.2.length = fresh.length ∧
      (∀ j (hj : j < fresh.length)
          (hj2 : j < (addListAssign k s i fresh).2.2.length),
        (addListAssign k s i fresh).2.2.get ⟨j, hj2⟩ =
          (⟨((i + j : Nat) : Int),
            (colNames k).zip
              (k.columns.map
                (resolveColumnValue
                  (heapGet s.heap (fresh.get ⟨j, hj⟩)).fields))⟩ : Row)) := by
  intro fresh
  induction fresh with
  | nil =>
    intro s i hnd
    refine ⟨rfl, rfl, fun a ha => rfl, fun m hm => rfl, ?_, ?_, rfl, ?_, rfl, ?_⟩ <;>
      · intro j hj
        exact absurd hj (by simp)
  | cons a rest ih =>
    intro s i hnd
    have hnotin : a ∉ rest := (List.nodup_cons.mp hnd).1
    obtain ⟨h1, h2, h3, h4, h5, h6, h7, h8, h9, h10⟩ :=
      ih ({ s with
          heap := aset s.heap a { heapGet s.heap a with dbid := some (i : Int) },
          cache := aset s.cache (i : Int) a }) (i + 1) (List.nodup_cons.mp hnd).2
    have hstep : ∀ b, b ≠ a →
        heapGet (aset s.heap a
            { heapGet s.heap a with dbid := some (i : Int) }) b =
          heapGet s.heap b := by
      intro b hb
      exact heapGet_aset_ne _ _ _ _ hb
    refine ⟨?_, ?_, ?_, ?_, ?_, ?_, ?_, ?_, ?_, ?_⟩
    · simpa [addListAssign] using h1
    · simpa [addListAssign] using h2
    · intro b hb
      have hbr : b ∉ rest := fun hm => hb (by simp [hm])
      have hba : b ≠ a := fun he => hb (by simp [he])
      show heapGet (addListAssign k _ (i + 1) rest).1.heap b = _
      rw [h3 b hbr]
      exact hstep b hba
    · intro m hm
      show alookup (addListAssign k _ (i + 1) rest).1.cache m = _
      rw [h4 m (by push_cast; omega)]
      show alookup (aset s.cache (i : Int) a) m = _
      exact alookup_aset_ne _ _ _ _ (by omega)
    · intro j hj
      cases j with
      | zero =>
        show heapGet (addListAssign k _ (i + 1) rest).1.heap a = _
        rw [h3 a hnotin, heapGet_aset_self]
        simp
      | succ j2 =>
        have hj2 : j2 < rest.length := by simpa using hj
        show heapGet (addListAssign k _ (i + 1) rest).1.heap
            (rest.get ⟨j2, hj2⟩) = _
        rw [h5 j2 hj2, hstep (rest.get ⟨j2, hj2⟩)
          (by rintro h; exact hnotin (h ▸ List.get_mem rest j2 hj2))]
        rw [show i + 1 + j2 = i + (j2 + 1) from by omega]
        rfl
    · intro j hj
      cases j with
      | zero =>
        show alookup (addListAssign k _ (i + 1) rest).1.cache _ = _
        rw [show ((i + 0 : Nat) : Int) = (i : Int) from by push_cast; omega]
        rw [h4 (i : Int) (by push_cast; omega)]
        show alookup (aset s.cache (i : Int) a) _ = _
        rw [alookup_aset_self]
        rfl
      | succ j2 =>
        have hj2 : j2 < rest.length := by simpa using hj
        show alookup (addListAssign k _ (i + 1) rest).1.cache _ = _
        rw [show ((i + (j2 + 1) : Nat) : Int) = ((i + 1 + j2 : Nat) : Int) from
          by push_cast; omega]
        rw [h6 j2 hj2]
        rfl
    · simpa [addListAssign] using h7
    · intro j hj hjl
      cases j with
      | zero =>
        show PyVal.vint (i : Int) :: _ = _
        rw [show ((i + 0 : Nat) : Int) = (i : Int) from by push_cast; omega]
        rfl
      | succ j2 =>
        have hj2 : j2 < rest.length := by simpa using hj
        have hjl2 : j2 < (addListAssign k ({ s with
            heap := aset s.heap a { heapGet s.heap a with dbid := some (i : Int) },
            cache := aset s.cache (i : Int) a } : State) (i + 1) rest).2.1.length := by
          rw [h7]; exact hj2
        show (addListAssign k _ (i + 1) rest).2.1.get ⟨j2, hjl2⟩ = _
        rw [h8 j2 hj2 hjl2, hstep (rest.get ⟨j2, hj2⟩)
          (by rintro h; exact hnotin (h ▸ List.get_mem rest j2 hj2))]
        rw [show i + 1 + j2 = i + (j2 + 1) from by omega]
        rfl
    · simpa [addListAssign] using h9
    · intro j hj hjl
      cases j with
      | zero =>
        show (⟨(i : Int), _⟩ : Row) = _
        rw [show ((i + 0 : Nat) : Int) = (i : Int) from by push_cast; omega]
        rfl
      | succ j2 =>
        have hj2 : j2 < rest.length := by simpa using hj
        have hjl2 : j2 < (addListAssign k ({ s with
            heap := aset s.heap a { heapGet s.heap a with dbid := some (i : Int) },
            cache := aset s.cache (i : Int) a } : State) (i + 1) rest).2.2.length := by
          rw [h9]; exact hj2
        show (addListAssign k _ (i + 1) rest).2.2.get ⟨j2, hjl2⟩ = _
        rw [h10 j2 hj2 hjl2, hstep (rest.get ⟨j2, hj2⟩)
          (by rintro h; exact hnotin (h ▸ List.get_mem rest j2 hj2))]
        rw [show i + 1 + j2 = i + (j2 + 1) from by omega]
        rfl

theorem countExecMany_append (l1 l2 : List Stmt) :
    countExecMany (l1 ++ l2) = countExecMany l1 + countExecMany l2 := by
  simp [countExecMany, List.countP_append]

theorem countUpdExec_append (k : Kind) (l1 l2 : List Stmt) :
    countUpdExec k (l1 ++ l2) = countUpdExec k l1 + countUpdExec k l2 := by
  simp [countUpdExec, List.countP_append]

/-- Claim C6: on a nonempty list, AddList redirects each item carrying a
valid existing key individually to Update, assigns the remaining fresh
items sequential dbids starting at 0 in list order, caches each under its
assigned dbid, and issues exactly one executemany INSERT whose parameter
rows are, in order, the value rows of the fresh items, appending exactly
one stored row per fresh item. The redirect count is observed on the trace
for a mutable kind, where each redirected item contributes exactly one
single UPDATE statement. Stated for kinds with at least one derived column
and lists whose fresh items are pairwise distinct objects. -/
theorem claim6_addlist (k : Kind) (commit : Bool) (s : State)
    (addrs : List Nat) (hne : addrs ≠ []) (hcol : k.columns ≠ [])
    (hnd : (freshList s addrs).Nodup) :
    (AddList k commit s addrs).2 = true ∧
    (∀ j (hj : j < (freshList s addrs).length),
      (heapGet (AddList k commit s addrs).1.heap
          ((freshList s addrs).get ⟨j, hj⟩)).dbid = some ((j : Nat) : Int)) ∧
    (∀ j (hj : j < (freshList s addrs).length),
      alookup (AddList k commit s addrs).1.cache ((j : Nat) : Int) =
        some ((freshList s addrs).get ⟨j, hj⟩)) ∧
    countExecMany (AddList k commit s addrs).1.trace =
      countExecMany s.trace + 1 ∧
    (∃ entries,
      Stmt.execMany (insertCmdText k) entries ∈
        (AddList k commit s addrs).1.trace ∧
      entries.length = (freshList s addrs).length ∧
      ∀ j (hj : j < (freshList s addrs).length) (hj2 : j < entries.length),
        entries.get ⟨j, hj2⟩ =
          PyVal.vint ((j : Nat) : Int) ::
            k.columns.map (resolveColumnValue
              (heapGet s.heap ((freshList s addrs).get ⟨j, hj⟩)).fields)) ∧
    (AddList k commit s addrs).1.table.length =
      s.table.length + (freshList s addrs).length ∧
    (∀ j (hj : j < (freshList s addrs).length)
        (hj2 : j <
          ((AddList k commit s addrs).1.table.drop s.table.length).length),
      ((AddList k commit s addrs).1.table.drop s.table.length).get ⟨j, hj2⟩ =
        (⟨((j : Nat) : Int),
          (colNames k).zip (k.columns.map (resolveColumnValue
            (heapGet s.heap ((freshList s addrs).get ⟨j, hj⟩)).fields))⟩ : Row)) ∧
    (k.immutable = false →
      countUpdExec k (AddList k commit s addrs).1.trace =
        countUpdExec k s.trace +
          (addrs.filter (fun a => validKey (heapGet s.heap a))).length) := by
  obtain ⟨x, xs, rfl⟩ := List.exists_cons_of_ne_nil hne
  obtain ⟨f1, f2, f3, f4, f5, f6, f7, f8⟩ :=
    addListFilter_spec k commit hcol (x :: xs) s []
  have hfr2 : (addListFilter k commit s [] (x :: xs)).2.1 =
      freshList s (x :: xs) := by
    rw [f2]
    simp [freshList]
  have hndF : (addListFilter k commit s [] (x :: xs)).2.1.Nodup := by
    rw [hfr2]
    exact hnd
  obtain ⟨a1, a2, a3, a4, a5, a6, a7, a8, a9, a10⟩ :=
    addListAssign_spec k (addListFilter k commit s [] (x :: xs)).2.1
      (addListFilter k commit s [] (x :: xs)).1 0 hndF
  rw [hfr2] at a1 a2 a5 a6 a7 a8 a9 a10
  rw [f3] at a5 a8 a10
  have hres : (AddList k commit s (x :: xs)).2 = true := by
    cases commit <;> simp [AddList, f1]
  have hheap : (AddList k commit s (x :: xs)).1.heap =
      (addListAssign k (addListFilter k commit s [] (x :: xs)).1 0
        (freshList s (x :: xs))).1.heap := by
    cases commit <;> simp [AddList, f1, hfr2]
  have hcache : (AddList k commit s (x :: xs)).1.cache =
      (addListAssign k (addListFilter k commit s [] (x :: xs)).1 0
        (freshList s (x :: xs))).1.cache := by
    cases commit <;> simp [AddList, f1, hfr2]
  have htable : (AddList k commit s (x :: xs)).1.table =
      (addListAssign k (addListFilter k commit s [] (x :: xs)).1 0
          (freshList s (x :: xs))).1.table ++
        (addListAssign k (addListFilter k commit s [] (x :: xs)).1 0
          (freshList s (x :: xs))).2.2 := by
    cases commit <;> simp [AddList, f1, hfr2]
  have htrace : (AddList k commit s (x :: xs)).1.trace =
      (addListAssign k (addListFilter k commit s [] (x :: xs)).1 0
          (freshList s (x :: xs))).1.trace ++
        ([Stmt.execMany (insertCmdText k)
          (addListAssign k (addListFilter k commit s [] (x :: xs)).1 0
            (freshList s (x :: xs))).2.1] ++
          (if commit then [Stmt.commitTx] else [])) := by
    cases commit <;> simp [AddList, f1, hfr2]
  refine ⟨hres, ?_, ?_, ?_, ?_, ?_, ?_, ?_⟩
  · intro j hj
    rw [hheap, a5 j hj]
    simp
  · intro j hj
    rw [hcache]
    have h := a6 j hj
    rw [show ((0 + j : Nat) : Int) = ((j : Nat) : Int) from by push_cast; omega] at h
    exact h
  · rw [htrace, a2, countExecMany_append, f7]
    cases commit <;>
      simp [countExecMany, isExecManyStmt, List.countP_cons, List.countP_nil]
  · refine ⟨(addListAssign k (addListFilter k commit s [] (x :: xs)).1 0
      (freshList s (x :: xs))).2.1, ?_, a7, ?_⟩
    · rw [htrace]
      simp
    · intro j hj hj2
      have h := a8 j hj hj2
      rw [show ((0 + j : Nat) : Int) = ((j : Nat) : Int) from by push_cast; omega] at h
      exact h
  · rw [htable, List.length_append, a1, f6, a9]
  · intro j hj hj2
    have heq : (AddList k commit s (x :: xs)).1.table.drop s.table.length =
        (addListAssign k (addListFilter k commit s [] (x :: xs)).1 0
          (freshList s (x :: xs))).2.2 := by
      rw [htable, a1, ← f6]
      exact List.drop_left _ _
    rw [List.get_of_eq heq]
    have h := a10 j hj (by rw [← heq]; exact hj2)
    rw [show ((0 + j : Nat) : Int) = ((j : Nat) : Int) from by push_cast; omega] at h
    exact h
  · intro himm
    rw [htrace, a2, countUpdExec_append, f8 himm]
    cases commit <;>
      simp [countUpdExec, isUpdExecStmt, List.countP_cons, List.countP_nil]

def k6 : Kind := ⟨"V", "v_table", [("a", "integer")], false⟩

def s6 : State :=
  ⟨[], [],
   [(5, ⟨none, [("a", PyVal.vint 1)]⟩), (6, ⟨none, [("a", PyVal.vint 2)]⟩)],
   7, []⟩

theorem claim6_addlist_witness :
    (AddList k6 true s6 [5, 6]).2 = true ∧
    (heapGet (AddList k6 true s6 [5, 6]).1.heap
        ((freshList s6 [5, 6]).get ⟨0, by decide⟩)).dbid = some ((0 : Nat) : Int) ∧
    countExecMany (AddList k6 true s6 [5, 6]).1.trace =
      countExecMany s6.trace + 1 :=
  ⟨(claim6_addlist k6 true s6 [5, 6] (by simp) (by simp [k6]) (by decide)).1,
   (claim6_addlist k6 true s6 [5, 6] (by simp) (by simp [k6]) (by decide)).2.1
      0 (by decide),
   (claim6_addlist k6 true s6 [5, 6] (by simp) (by simp [k6]) (by decide)).2.2.2.1⟩

end Narwhal

